import Mathlib

/-!
Verification of the directory SEO slug utilities, the category resolver, the
subdomain routing middleware and the lead-popup scheduler of the marketplace
frontend.  JavaScript strings are modelled as `List Char` (the ASCII fragment
of the character classes involved); fallible values are `Option`s.
-/

/-- Convert a Lean string literal to the `List Char` string model. -/
def str (s : String) : List Char := s.toList

/-! ## SlugCodec: `toSlug` -/

/-- Whitespace characters: the ASCII fragment of the JavaScript class `\s`
(space, tab, LF, VT, FF, CR).  Used both by `trim()` and by the `\s+` regex. -/
def isWs (c : Char) : Bool :=
  c.toNat = 32 || c.toNat = 9 || c.toNat = 10 || c.toNat = 11 || c.toNat = 12 || c.toNat = 13

/-- The hyphen character class used by the regexes `-`, `-+`, `^-+|-+$`. -/
def isHy (c : Char) : Bool := c == '-'

/-- ASCII fragment of `String.prototype.toLowerCase`. -/
def lowerChar (c : Char) : Char :=
  if 65 ≤ c.toNat && c.toNat ≤ 90 then Char.ofNat (c.toNat + 32) else c

def isLowerAlpha (c : Char) : Bool := 97 ≤ c.toNat && c.toNat ≤ 122

def isDigitCh (c : Char) : Bool := 48 ≤ c.toNat && c.toNat ≤ 57

/-- Characters kept by `replace(/[^a-z0-9\s-]/g, '')` (which runs after
lowercasing). -/
def keepChar (c : Char) : Bool := isLowerAlpha c || isDigitCh c || isWs c || isHy c

/-- JavaScript `String.prototype.trim` (ASCII whitespace fragment): drop
whitespace from both ends. -/
def jsTrim (l : List Char) : List Char :=
  ((l.dropWhile isWs).reverse.dropWhile isWs).reverse

/-- Replace every maximal run of characters satisfying `p` by the single
character `rep`; embeds the two global regex replaces of `toSlug`
(whitespace runs to `'-'`, then hyphen runs to `'-'`). -/
def collapseRuns (p : Char → Bool) (rep : Char) : List Char → List Char
  | [] => []
  | [c] => if p c then [rep] else [c]
  | c :: d :: rest =>
    if p c then
      if p d then collapseRuns p rep (d :: rest)
      else rep :: collapseRuns p rep (d :: rest)
    else c :: collapseRuns p rep (d :: rest)

/-- The regex replace `replace(/^-+|-+$/g, '')`: strip leading and trailing
hyphen runs. -/
def trimHy (l : List Char) : List Char :=
  ((l.dropWhile isHy).reverse.dropWhile isHy).reverse

/-- `toSlug` from the SEO slug utilities (`seo.ts`): trim, lowercase, strip
characters outside `[a-z0-9\s-]`, turn whitespace runs into hyphens, collapse
hyphen runs, trim hyphens at the ends. -/
def toSlug (value : List Char) : List Char :=
  trimHy (collapseRuns isHy '-' (collapseRuns isWs '-'
    (((jsTrim value).map lowerChar).filter keepChar)))

/-- Characters that can occur in a finished slug. -/
def goodChar (c : Char) : Bool := isLowerAlpha c || isDigitCh c || isHy c

/-- No two adjacent characters both satisfy `p`. -/
def noRun (p : Char → Bool) (a b : Char) : Prop := ¬(p a = true ∧ p b = true)


/-! ## SeoPathParser and SeoPathBuilder -/

/-- JavaScript `String.prototype.split` with a one-character separator
(non-collapsing: empty pieces are kept, `''.split(sep) = ['']`). -/
def splitCh (sep : Char) : List Char → List (List Char)
  | [] => [[]]
  | c :: cs =>
    match splitCh sep cs with
    | [] => [[c]]
    | h :: t => if c = sep then [] :: h :: t else (c :: h) :: t

/-- JavaScript `Array.prototype.join('-')`. -/
def joinHyphen : List (List Char) → List Char
  | [] => []
  | [x] => x
  | x :: y :: rest => x ++ '-' :: joinHyphen (y :: rest)

/-- The literal substring marker `-in-`. -/
def sepIn : List Char := ['-', 'i', 'n', '-']

/-- JavaScript `String.prototype.includes` (substring containment). -/
def containsSub (pat : List Char) : List Char → Bool
  | [] => pat.isEmpty
  | c :: cs => pat.isPrefixOf (c :: cs) || containsSub pat cs

/-- Index of the first occurrence of the `-in-` marker: the least `i` such that
`sepIn` is a prefix of `l.drop i` (`none` when there is no occurrence). -/
def firstIn : List Char → Option Nat
  | [] => none
  | c :: cs => if sepIn.isPrefixOf (c :: cs) then some 0 else (firstIn cs).map (· + 1)

/-- JavaScript `slug.split('-in-')`: split on every non-overlapping occurrence
of the marker, scanning left to right.  `acc` holds the current piece,
reversed.  When the marker (4 characters) is a prefix, the scan continues
after it, i.e. on `cs.drop 3`; the inner match realises that drop
structurally (its fallback arm is unreachable, since a prefix match forces
`cs` to have at least three characters). -/
def splitOnInAux : List Char → List Char → List (List Char)
  | [], acc => [acc.reverse]
  | c :: cs, acc =>
    if sepIn.isPrefixOf (c :: cs) then
      match cs with
      | _ :: _ :: _ :: rest => acc.reverse :: splitOnInAux rest []
      | _ => [acc.reverse]
    else
      splitOnInAux cs (c :: acc)

def splitOnIn (l : List Char) : List (List Char) := splitOnInAux l []

/-- Text of `slug` strictly between the first occurrence of the `-in-` marker
(which ends at index `i + 4`) and the next following occurrence, or all the
remaining text when there is no further occurrence.  Stated in
first-occurrence-index vocabulary, independently of the JS split. -/
def betweenMarkers (slug : List Char) (i : Nat) : List Char :=
  match firstIn (slug.drop (i + 4)) with
  | none => slug.drop (i + 4)
  | some j => (slug.drop (i + 4)).take j

/-- Result of the SEO slug parse. -/
structure SlugTriple where
  serviceSlug : Option (List Char)
  citySlug : Option (List Char)
  stateSlug : Option (List Char)
deriving DecidableEq, Repr

/-- `parseSeoSlug` from the catch-all directory page: join the URL segments
with `'-'`, and if the result contains `-in-`, destructure the JS split into
its first two pieces (`servicePart`, `locationPart`) and apply the positional
city/state heuristic to `locationPart`; otherwise the whole string is the
service slug. -/
def parseSeoSlug (slugArray : List (List Char)) : SlugTriple :=
  let slug := joinHyphen slugArray
  if containsSub sepIn slug then
    let pieces := splitOnIn slug
    let servicePart := pieces.headD []
    let locationPart := (pieces.drop 1).headD []
    let parts := splitCh '-' locationPart
    if 3 ≤ parts.length then
      { serviceSlug := some servicePart,
        citySlug :=
          if joinHyphen (parts.take (parts.length - 2)) = [] then none
          else some (joinHyphen (parts.take (parts.length - 2))),
        stateSlug := some (joinHyphen (parts.drop (parts.length - 2))) }
    else if parts.length = 2 then
      { serviceSlug := some servicePart,
        citySlug := some (parts.headD []),
        stateSlug := some ((parts.drop 1).headD []) }
    else if parts.length = 1 then
      { serviceSlug := some servicePart,
        citySlug := some (parts.headD []),
        stateSlug := none }
    else
      { serviceSlug := some servicePart, citySlug := none, stateSlug := none }
  else
    { serviceSlug := some slug, citySlug := none, stateSlug := none }

/-- Options record of `buildDirectorySeoPath` (absent and `null` fields are
both `none`). -/
structure BuildOpts where
  serviceName : Option (List Char)
  cityName : Option (List Char)
  stateName : Option (List Char)
deriving DecidableEq, Repr

/-- JavaScript truthiness of a string-or-null value (`null`, `undefined` and
`''` are falsy). -/
def jsTruthy : Option (List Char) → Bool
  | none => false
  | some s => !s.isEmpty

/-- `buildDirectorySeoPath` from the SEO slug utilities. -/
def buildDirectorySeoPath (opts : BuildOpts) : Option (List Char) :=
  let serviceSlug : Option (List Char) :=
    if jsTruthy opts.serviceName then some (toSlug (opts.serviceName.getD [])) else none
  let citySlug : Option (List Char) :=
    if jsTruthy opts.cityName then some (toSlug (opts.cityName.getD [])) else none
  let stateSlug : Option (List Char) :=
    if jsTruthy opts.stateName then some (toSlug (opts.stateName.getD [])) else none
  if jsTruthy serviceSlug && jsTruthy citySlug && jsTruthy stateSlug then
    some (str (r"/directory/") ++ serviceSlug.getD [] ++ str (r"-in-") ++
      citySlug.getD [] ++ ['-'] ++ stateSlug.getD [])
  else if jsTruthy serviceSlug then
    some (str (r"/directory/") ++ serviceSlug.getD [])
  else
    none

/-- A serviceName is "effectively present" iff it is given, truthy, and its
slug is non-empty (the builder tests the slug's truthiness). -/
def effectiveService (o : BuildOpts) : Bool :=
  jsTruthy o.serviceName && !(toSlug (o.serviceName.getD [])).isEmpty

def effectiveCity (o : BuildOpts) : Bool :=
  jsTruthy o.cityName && !(toSlug (o.cityName.getD [])).isEmpty

def effectiveState (o : BuildOpts) : Bool :=
  jsTruthy o.stateName && !(toSlug (o.stateName.getD [])).isEmpty

/-! ## CategoryResolver -/

structure SubCategory where
  name : List Char
deriving DecidableEq, Repr

structure ServiceCategory where
  name : List Char
  subCategories : List SubCategory
deriving DecidableEq, Repr

structure DirectoryCategoryPath where
  headCategory : Option (List Char)
  microCategory : Option (List Char)
  serviceName : Option (List Char)
deriving DecidableEq, Repr

/-- `name.toLowerCase().trim()` (ASCII fragment), the normalisation used on
both the service name and the catalog names. -/
def normName (l : List Char) : List Char := jsTrim (l.map lowerChar)

/-- The search loop of `resolveCategoryPathForService`: for each category in
catalog order, first compare the head-category name, then search that
category's subcategories (`find?` on an empty list is `none`, matching the
source's explicit length guard); the first match in this interleaved order
wins. -/
def resolveLoop (s ns : List Char) : List ServiceCategory → DirectoryCategoryPath
  | [] => { headCategory := none, microCategory := none, serviceName := some s }
  | cat :: rest =>
    if normName cat.name = ns then
      { headCategory := some cat.name, microCategory := none, serviceName := some s }
    else
      match cat.subCategories.find? (fun sc => normName sc.name == ns) with
      | some sc =>
        { headCategory := some cat.name, microCategory := some sc.name,
          serviceName := some s }
      | none => resolveLoop s ns rest

/-- `resolveCategoryPathForService` from the category resolver utility: a
falsy serviceName or an empty catalog short-circuits to nulls
(`serviceName || null` sends the empty string to null); otherwise the
interleaved per-category search runs on the normalised name. -/
def resolveCategoryPathForService (serviceName : Option (List Char))
    (categories : List ServiceCategory) : DirectoryCategoryPath :=
  if serviceName = none ∨ serviceName = some [] ∨ categories = [] then
    { headCategory := none, microCategory := none,
      serviceName :=
        match serviceName with
        | some s => if s = [] then none else some s
        | none => none }
  else
    match serviceName with
    | some s => resolveLoop s (normName s) categories
    | none => { headCategory := none, microCategory := none, serviceName := none }

/-! ## SubdomainRouter (middleware) -/

/-- Parts of a `NextURL` relevant to the middleware. -/
structure NextUrl where
  hostname : List Char
  port : List Char
  pathname : List Char
deriving DecidableEq, Repr

/-- An inbound request: its parsed URL and the raw `host` header (an absent
header is `none`; the code falls back to `''`). -/
structure Req where
  nextUrl : NextUrl
  hostHeader : Option (List Char)
deriving DecidableEq, Repr

/-- Middleware outcome: pass through, redirect (with HTTP status; the default
`NextResponse.redirect` status is 307) or internal rewrite. -/
inductive MwResponse where
  | next : MwResponse
  | redirect : Nat → NextUrl → MwResponse
  | rewrite : NextUrl → MwResponse
deriving DecidableEq, Repr

def MAIN_DOMAIN : List Char := str (r"indiantrademart.com")

/-- The subdomain → path mapping table `SUBDOMAIN_MAP`. -/
def SUBDOMAIN_MAP (sub : List Char) : Option (List Char) :=
  if sub = str (r"vendor") then some (str (r"/vendor"))
  else if sub = str (r"buyer") then some (str (r"/buyer"))
  else if sub = str (r"emp") then some (str (r"/employee"))
  else if sub = str (r"dir") then some (str (r"/directory"))
  else if sub = str (r"man") then some (str (r"/management"))
  else none

/-- The static-asset regex test (a dot followed by one or more non-slash
characters reaching the end of the path). -/
def testDotExt : List Char → Bool
  | [] => false
  | c :: cs => ((c == '.') && !cs.isEmpty && cs.all (fun d => !(d == '/'))) || testDotExt cs

/-- `buildSubdomainRedirectUrl` from the middleware: clone the request URL,
point it at the desired subdomain (preserving a localhost port). -/
def buildSubdomainRedirectUrl (req : Req) (host hostname sub : List Char) : NextUrl :=
  let redirectUrl := req.nextUrl
  let isLocalhost := containsSub (str (r"localhost")) hostname
  let currentPort := ((splitCh ':' host).drop 1).headD []
  if isLocalhost then
    let u := { redirectUrl with hostname := sub ++ str (r".localhost") }
    if currentPort ≠ [] then { u with port := currentPort } else u
  else
    { redirectUrl with hostname := sub ++ ('.' :: MAIN_DOMAIN), port := [] }

/-- Reserved prefixes of the dir-subdomain rewrite stage. -/
def dirReservedPrefixes : List (List Char) :=
  [str (r"/directory"), str (r"/api"), str (r"/_next"), str (r"/dashboard"),
   str (r"/auth"), str (r"/static"), str (r"/assets"), str (r"/favicon")]

/-- Reserved prefixes of the main-domain redirect stage. -/
def mainReservedPrefixes : List (List Char) :=
  [str (r"/api"), str (r"/_next"), str (r"/dashboard"), str (r"/auth"),
   str (r"/static"), str (r"/assets"), str (r"/favicon"), str (r"/directory"),
   str (r"/vendor"), str (r"/buyer"), str (r"/employee"), str (r"/management")]

/-- `prefixes.some(p => pathname === p || pathname.startsWith(p + '/'))`. -/
def isReservedIn (prefixes : List (List Char)) (pathname : List Char) : Bool :=
  prefixes.any (fun p => pathname == p || (p ++ ['/']).isPrefixOf pathname)

/-- The final stage (step 7 of the spec): generic subdomain → path rewrite,
skipped for `/dashboard` routes and for paths already under the target
prefix. -/
def genericSubdomainRewrite (url : NextUrl) (targetPath : Option (List Char)) :
    MwResponse :=
  let pathname := url.pathname
  let isDashboardRoute := (str (r"/dashboard")).isPrefixOf pathname
  match targetPath with
  | some tp =>
    if ¬tp.isPrefixOf pathname ∧ ¬isDashboardRoute then
      MwResponse.rewrite
        { url with pathname := tp ++ (if pathname = str (r"/") then [] else pathname) }
    else MwResponse.next
  | none => MwResponse.next

/-- The routing middleware (`middleware.ts`), stage by stage in source order:
static-asset bypass, auth cross-subdomain redirects, directory redirect, auth
passthrough, dir-subdomain rewrite, main/www bare-slug 308 redirect, then the
generic subdomain rewrite. -/
def middleware (req : Req) : MwResponse :=
  let url := req.nextUrl
  let pathname := url.pathname
  if testDotExt pathname then MwResponse.next
  else
    let host := req.hostHeader.getD []
    let hostname := (splitCh ':' host).headD []
    let subdomain := (splitCh '.' hostname).headD []
    let isLocalhost := containsSub (str (r"localhost")) hostname
    let baseDomain := if isLocalhost then str (r"localhost") else MAIN_DOMAIN
    let targetPath := SUBDOMAIN_MAP subdomain
    if (str (r"/auth/vendor/")).isPrefixOf pathname ∧ subdomain ≠ str (r"vendor") then
      MwResponse.redirect 307 (buildSubdomainRedirectUrl req host hostname (str (r"vendor")))
    else if (str (r"/auth/user/")).isPrefixOf pathname ∧ subdomain ≠ str (r"buyer") then
      MwResponse.redirect 307 (buildSubdomainRedirectUrl req host hostname (str (r"buyer")))
    else if (pathname = str (r"/directory") ∨ (str (r"/directory/")).isPrefixOf pathname)
        ∧ subdomain ≠ str (r"dir") then
      MwResponse.redirect 307 (buildSubdomainRedirectUrl req host hostname (str (r"dir")))
    else if (str (r"/auth/")).isPrefixOf pathname then MwResponse.next
    else if subdomain = str (r"dir") ∧ pathname ≠ str (r"/")
        ∧ ¬isReservedIn dirReservedPrefixes pathname
        ∧ ¬(str (r"/directory")).isPrefixOf pathname then
      MwResponse.rewrite { url with pathname := str (r"/directory") ++ pathname }
    else if (subdomain = [] ∨ subdomain = str (r"www")) ∧ pathname ≠ str (r"/")
        ∧ ¬isReservedIn mainReservedPrefixes pathname then
      MwResponse.redirect 308
        { url with
          hostname :=
            if isLocalhost then str (r"dir.localhost") else str (r"dir.") ++ baseDomain,
          port :=
            if isLocalhost then
              (if ((splitCh ':' host).drop 1).headD [] ≠ [] then
                ((splitCh ':' host).drop 1).headD []
               else url.port)
            else [] }
    else genericSubdomainRewrite url targetPath

/-! ## LeadPopupScheduler (useLeadPopup) -/

/-- Options of `useLeadPopup` that affect scheduling.  The delay plays no
role in the untimed model: the timeout firing is a separate event that can
occur only while a timeout is pending, which covers every delay value. -/
structure SchedConfig where
  enabledAutoOpen : Bool
  autoOpenDelayMs : Nat
deriving DecidableEq, Repr

/-- State of one scheduler (hook) instance plus the session flag: `isOpen`,
`hasSubmitted`, `hasDismissed` are the three `useState`s, `timerPending`
records an armed (not yet fired, not yet cleared) timeout, and `storage` is
the persisted `lead-popup-submitted-session` flag of the browser session. -/
structure SchedState where
  isOpen : Bool
  hasSubmitted : Bool
  hasDismissed : Bool
  timerPending : Bool
  storage : Bool
deriving DecidableEq, Repr

/-- The varying part of the scheduling effect's dependency list
`[enabledAutoOpen, hasSubmitted, hasDismissed, autoOpenDelayMs]`: only the
two state fields change during a view (`isOpen` is not a dependency). -/
def schedDeps (s : SchedState) : Bool × Bool := (s.hasSubmitted, s.hasDismissed)

/-- The body of the scheduling effect: return early (no timer) unless
auto-open is enabled and the user has neither submitted nor dismissed;
otherwise arm the one-shot timeout. -/
def effectRun (cfg : SchedConfig) (s : SchedState) : SchedState :=
  if cfg.enabledAutoOpen && !s.hasSubmitted && !s.hasDismissed then
    { s with timerPending := true }
  else s

/-- React semantics of a state update: when the effect dependencies changed,
the previous effect's cleanup runs (clearing the pending timeout) and the
effect re-runs; otherwise any pending timeout is left untouched. -/
def afterUpdate (cfg : SchedConfig) (old upd : SchedState) : SchedState :=
  if schedDeps upd ≠ schedDeps old then effectRun cfg { upd with timerPending := false }
  else upd

/-- Events a mounted scheduler can process: the exposed `openPopup`,
`closePopup` and `markAsSubmitted` handlers, the timeout callback
(`timerFire`), and view unmount (which runs the effect cleanup). -/
inductive SchedEv where
  | openPopup : SchedEv
  | closePopup : SchedEv
  | markAsSubmitted : SchedEv
  | timerFire : SchedEv
  | unmount : SchedEv
deriving DecidableEq, Repr

/-- One step of the scheduler: the handler's `setState` calls followed by the
effect reconciliation.  `openPopup` only sets `isOpen`; `closePopup` closes
and marks the in-memory dismissal; `markAsSubmitted` closes, marks submission
and persists the session flag; `timerFire` (possible only while pending)
opens and consumes the one-shot timeout; `unmount` runs the cleanup. -/
def schedStep (cfg : SchedConfig) (s : SchedState) : SchedEv → SchedState
  | SchedEv.openPopup => afterUpdate cfg s { s with isOpen := true }
  | SchedEv.closePopup =>
      afterUpdate cfg s { s with isOpen := false, hasDismissed := true }
  | SchedEv.markAsSubmitted =>
      afterUpdate cfg s { s with isOpen := false, hasSubmitted := true, storage := true }
  | SchedEv.timerFire =>
      if s.timerPending then
        afterUpdate cfg s { s with isOpen := true, timerPending := false }
      else s
  | SchedEv.unmount => { s with timerPending := false }

/-- Mounting a scheduler instance: `useState` defaults, then, after the first
render, the storage-reading effect (setting `hasSubmitted` when the session
flag is set) and the scheduling effect run against the initial state; the
storage-induced update then reconciles the scheduling effect (dependency
change ⇒ cleanup and early return). -/
def mountScheduler (cfg : SchedConfig) (storage : Bool) : SchedState :=
  let s0 : SchedState :=
    { isOpen := false, hasSubmitted := false, hasDismissed := false,
      timerPending := false, storage := storage }
  let s1 := effectRun cfg s0
  if storage then afterUpdate cfg s1 { s1 with hasSubmitted := true } else s1

/-- Run a mounted scheduler over a sequence of events. -/
def runSched (cfg : SchedConfig) (s : SchedState) : List SchedEv → SchedState
  | [] => s
  | e :: es => runSched cfg (schedStep cfg s e) es

/-- A pending timeout can only exist before any dismissal or submission. -/
def pendingInv (s : SchedState) : Prop :=
  s.timerPending = true → (s.hasDismissed = false ∧ s.hasSubmitted = false)

/-! ## Theorems -/

example : toSlug (str (r"PEB Building Design Consultant")) =
    str (r"peb-building-design-consultant") := by decide

example : toSlug (str (r"  Multiple   Spaces--and--dashes  ")) =
    str (r"multiple-spaces-and-dashes") := by decide

example : toSlug (str (r"Andhra Pradesh")) = str (r"andhra-pradesh") := by decide

example : parseSeoSlug [str (r"land-surveyors")] =
    { serviceSlug := some (str (r"land-surveyors")), citySlug := none, stateSlug := none } := by
  decide

example :
    parseSeoSlug [str (r"peb-building-design-consultant-in-visakhapatnam-andhra-pradesh")] =
      { serviceSlug := some (str (r"peb-building-design-consultant")),
        citySlug := some (str (r"visakhapatnam")),
        stateSlug := some (str (r"andhra-pradesh")) } := by
  decide

example : buildDirectorySeoPath ⟨some (str (r"Land Surveyors")), none, none⟩ =
    some (str (r"/directory/land-surveyors")) := by decide

example :
    buildDirectorySeoPath
      ⟨some (str (r"PEB Building Design Consultant")), some (str (r"Visakhapatnam")),
        some (str (r"Andhra Pradesh"))⟩ =
    some (str (r"/directory/peb-building-design-consultant-in-visakhapatnam-andhra-pradesh")) := by
  decide

example : buildDirectorySeoPath ⟨none, some (str (r"Delhi")), none⟩ = none := by decide

/-! ### Slug pipeline lemmas -/

theorem collapseRuns_head? (p : Char → Bool) (rep : Char) :
    ∀ (xs : List Char) (x : Char),
      (collapseRuns p rep (x :: xs)).head? = some (if p x then rep else x) := by
  intro xs
  induction xs with
  | nil =>
    intro x
    by_cases h : p x = true <;> simp [collapseRuns, h]
  | cons d rest ih =>
    intro x
    by_cases hx : p x = true <;> by_cases hd : p d = true <;>
      simp [collapseRuns, hx, hd, ih d]

theorem collapseRuns_mem (p : Char → Bool) (rep : Char) :
    ∀ (l : List Char) (c : Char), c ∈ collapseRuns p rep l →
      c = rep ∨ (c ∈ l ∧ p c = false) := by
  intro l
  induction l using collapseRuns.induct p rep with
  | case1 =>
    intro c hc
    simp [collapseRuns] at hc
  | case2 x hx =>
    intro c hc
    simp [collapseRuns, hx] at hc
    exact Or.inl hc
  | case3 x hx =>
    have hx' : p x = false := by simpa using hx
    intro c hc
    simp [collapseRuns, hx'] at hc
    subst hc
    exact Or.inr ⟨by simp, hx'⟩
  | case4 x d rest hx hd ih =>
    intro c hc
    rw [collapseRuns, if_pos hx, if_pos hd] at hc
    rcases ih c hc with h | ⟨hm, hp⟩
    · exact Or.inl h
    · exact Or.inr ⟨List.mem_cons_of_mem _ hm, hp⟩
  | case5 x d rest hx hd ih =>
    intro c hc
    rw [collapseRuns, if_pos hx, if_neg hd] at hc
    rcases List.mem_cons.1 hc with h | h
    · exact Or.inl h
    · rcases ih c h with h' | ⟨hm, hp⟩
      · exact Or.inl h'
      · exact Or.inr ⟨List.mem_cons_of_mem _ hm, hp⟩
  | case6 x d rest hx ih =>
    intro c hc
    rw [collapseRuns, if_neg hx] at hc
    rcases List.mem_cons.1 hc with h | h
    · subst h
      exact Or.inr ⟨List.mem_cons_self _ _, by simpa using hx⟩
    · rcases ih c h with h' | ⟨hm, hp⟩
      · exact Or.inl h'
      · exact Or.inr ⟨List.mem_cons_of_mem _ hm, hp⟩

theorem collapseRuns_chain' (p : Char → Bool) (rep : Char) :
    ∀ l : List Char, List.Chain' (noRun p) (collapseRuns p rep l) := by
  intro l
  induction l using collapseRuns.induct p rep with
  | case1 => simp [collapseRuns]
  | case2 x hx => simp [collapseRuns, hx]
  | case3 x hx =>
    have hx' : p x = false := by simpa using hx
    simp [collapseRuns, hx']
  | case4 x d rest hx hd ih =>
    rw [collapseRuns, if_pos hx, if_pos hd]
    exact ih
  | case5 x d rest hx hd ih =>
    rw [collapseRuns, if_pos hx, if_neg hd]
    refine List.chain'_cons'.2 ⟨?_, ih⟩
    intro b hb
    rw [collapseRuns_head? p rep rest d, if_neg hd] at hb
    intro hab
    rw [Option.mem_def, Option.some_inj] at hb
    rw [hb] at hd
    exact hd hab.2
  | case6 x d rest hx ih =>
    rw [collapseRuns, if_neg hx]
    refine List.chain'_cons'.2 ⟨?_, ih⟩
    intro b _ hab
    exact hx hab.1

theorem collapseRuns_eq_self (p : Char → Bool) (rep : Char) :
    ∀ l : List Char, List.Chain' (noRun p) l →
      (∀ c ∈ l, p c = true → c = rep) → collapseRuns p rep l = l := by
  intro l
  induction l using collapseRuns.induct p rep with
  | case1 =>
    intro _ _
    rfl
  | case2 x hx =>
    intro _ hrep
    simp [collapseRuns, hx, (hrep x (by simp) hx).symm]
  | case3 x hx =>
    have hx' : p x = false := by simpa using hx
    intro _ _
    simp [collapseRuns, hx']
  | case4 x d rest hx hd ih =>
    intro hch _
    exact absurd ⟨hx, hd⟩ (List.chain'_cons.1 hch).1
  | case5 x d rest hx hd ih =>
    intro hch hrep
    rw [collapseRuns, if_pos hx, if_neg hd]
    rw [ih (List.chain'_cons.1 hch).2 (fun c hc hp => hrep c (List.mem_cons_of_mem _ hc) hp)]
    rw [← hrep x (by simp) hx]
  | case6 x d rest hx ih =>
    intro hch hrep
    rw [collapseRuns, if_neg hx]
    rw [ih (List.chain'_cons.1 hch).2 (fun c hc hp => hrep c (List.mem_cons_of_mem _ hc) hp)]

theorem dropWhile_eq_self_of_head (p : Char → Bool) (l : List Char)
    (h : ∀ c, l.head? = some c → p c = false) : l.dropWhile p = l := by
  cases l with
  | nil => rfl
  | cons a l => simp [List.dropWhile_cons, h a rfl]

theorem head?_dropWhile (p : Char → Bool) :
    ∀ l : List Char, ∀ c, (l.dropWhile p).head? = some c → p c = false := by
  intro l
  induction l with
  | nil => intro c h; simp at h
  | cons a l ih =>
    intro c h
    rw [List.dropWhile_cons] at h
    by_cases ha : p a = true
    · rw [if_pos ha] at h
      exact ih c h
    · rw [if_neg ha] at h
      simp at h
      rw [← h]
      simpa using ha

theorem getLast?_of_suffix {l m : List Char} (h : l <:+ m) (hne : l ≠ []) :
    m.getLast? = l.getLast? := by
  obtain ⟨t, rfl⟩ := h
  exact List.getLast?_append_of_ne_nil _ hne

theorem good_not_ws {c : Char} (h : goodChar c = true) : isWs c = false := by
  simp only [goodChar, Bool.or_eq_true] at h
  rcases h with (h | h) | h
  · simp only [isLowerAlpha, Bool.and_eq_true, decide_eq_true_eq] at h
    simp only [isWs, Bool.or_eq_false_iff, decide_eq_false_iff_not]
    omega
  · simp only [isDigitCh, Bool.and_eq_true, decide_eq_true_eq] at h
    simp only [isWs, Bool.or_eq_false_iff, decide_eq_false_iff_not]
    omega
  · simp only [isHy, beq_iff_eq] at h
    subst h
    decide

theorem good_lower {c : Char} (h : goodChar c = true) : lowerChar c = c := by
  simp only [goodChar, Bool.or_eq_true] at h
  rcases h with (h | h) | h
  · simp only [isLowerAlpha, Bool.and_eq_true, decide_eq_true_eq] at h
    unfold lowerChar
    rw [if_neg]
    simp only [Bool.and_eq_true, decide_eq_true_eq, not_and]
    omega
  · simp only [isDigitCh, Bool.and_eq_true, decide_eq_true_eq] at h
    unfold lowerChar
    rw [if_neg]
    simp only [Bool.and_eq_true, decide_eq_true_eq, not_and]
    omega
  · simp only [isHy, beq_iff_eq] at h
    subst h
    decide

theorem good_keep {c : Char} (h : goodChar c = true) : keepChar c = true := by
  simp only [goodChar, Bool.or_eq_true] at h
  simp only [keepChar, Bool.or_eq_true]
  tauto

theorem dropWhile_eq_self_of_forall (p : Char → Bool) (l : List Char)
    (h : ∀ c ∈ l, p c = false) : l.dropWhile p = l :=
  dropWhile_eq_self_of_head p l (fun c hc => h c (List.mem_of_mem_head? hc))

theorem jsTrim_eq_self {l : List Char} (h : ∀ c ∈ l, isWs c = false) : jsTrim l = l := by
  unfold jsTrim
  rw [dropWhile_eq_self_of_forall isWs l h]
  rw [dropWhile_eq_self_of_forall isWs l.reverse
    (fun c hc => h c (List.mem_reverse.1 hc))]
  exact List.reverse_reverse l

theorem map_eq_self_of {f : Char → Char} {l : List Char}
    (h : ∀ c ∈ l, f c = c) : l.map f = l := by
  induction l with
  | nil => rfl
  | cons a t ih =>
    simp only [List.map_cons, h a (by simp)]
    rw [ih (fun c hc => h c (List.mem_cons_of_mem _ hc))]

theorem chain'_noRun_of_none {p : Char → Bool} {l : List Char}
    (h : ∀ c ∈ l, p c = false) : List.Chain' (noRun p) l := by
  induction l with
  | nil => simp
  | cons a t ih =>
    refine List.chain'_cons'.2 ⟨?_, ih (fun c hc => h c (List.mem_cons_of_mem _ hc))⟩
    intro b _ hab
    exact absurd hab.1 (by simp [h a (by simp)])

theorem trimHy_subset (l : List Char) : trimHy l ⊆ l := by
  intro c hc
  unfold trimHy at hc
  rw [List.mem_reverse] at hc
  have h1 := (List.dropWhile_suffix isHy).subset hc
  rw [List.mem_reverse] at h1
  exact (List.dropWhile_suffix isHy).subset h1

theorem chain'_trimHy {l : List Char} (h : List.Chain' (noRun isHy) l) :
    List.Chain' (noRun isHy) (trimHy l) := by
  have hsymm : ∀ a b : Char, noRun isHy a b → flip (noRun isHy) a b :=
    fun a b hab hc => hab ⟨hc.2, hc.1⟩
  unfold trimHy
  have h1 : List.Chain' (noRun isHy) (l.dropWhile isHy) :=
    h.suffix (List.dropWhile_suffix isHy)
  have h2 : List.Chain' (noRun isHy) ((l.dropWhile isHy).reverse) :=
    List.chain'_reverse.2 (List.Chain'.imp hsymm h1)
  have h3 : List.Chain' (noRun isHy) ((l.dropWhile isHy).reverse.dropWhile isHy) :=
    h2.suffix (List.dropWhile_suffix isHy)
  exact List.chain'_reverse.2 (List.Chain'.imp hsymm h3)

theorem trimHy_head (l : List Char) :
    ∀ c, (trimHy l).head? = some c → isHy c = false := by
  intro c hc
  unfold trimHy at hc
  rw [List.head?_reverse] at hc
  have hne : (l.dropWhile isHy).reverse.dropWhile isHy ≠ [] := by
    intro h
    rw [h] at hc
    simp at hc
  have heq := getLast?_of_suffix (List.dropWhile_suffix isHy) hne
  rw [← heq, List.getLast?_reverse] at hc
  exact head?_dropWhile isHy l c hc

theorem trimHy_last (l : List Char) :
    ∀ c, (trimHy l).getLast? = some c → isHy c = false := by
  intro c hc
  unfold trimHy at hc
  rw [List.getLast?_reverse] at hc
  exact head?_dropWhile isHy _ c hc

theorem toSlug_good (x : List Char) : ∀ c ∈ toSlug x, goodChar c = true := by
  intro c hc
  unfold toSlug at hc
  have hA := trimHy_subset _ hc
  rcases collapseRuns_mem isHy '-' _ c hA with rfl | ⟨hB, hhy⟩
  · decide
  · rcases collapseRuns_mem isWs '-' _ c hB with rfl | ⟨hC, hws⟩
    · decide
    · have hkeep := (List.mem_filter.1 hC).2
      simp only [keepChar, hws, hhy, Bool.or_false, Bool.or_eq_true] at hkeep
      simp only [goodChar, hhy, Bool.or_false, Bool.or_eq_true]
      exact hkeep

theorem toSlug_chain' (x : List Char) : List.Chain' (noRun isHy) (toSlug x) :=
  chain'_trimHy (collapseRuns_chain' isHy '-' _)

theorem toSlug_head (x : List Char) :
    ∀ c, (toSlug x).head? = some c → isHy c = false :=
  fun c hc => trimHy_head _ c hc

theorem toSlug_last (x : List Char) :
    ∀ c, (toSlug x).getLast? = some c → isHy c = false :=
  fun c hc => trimHy_last _ c hc

theorem toSlug_eq_self {s : List Char}
    (good : ∀ c ∈ s, goodChar c = true)
    (ch : List.Chain' (noRun isHy) s)
    (hh : ∀ c, s.head? = some c → isHy c = false)
    (hl : ∀ c, s.getLast? = some c → isHy c = false) : toSlug s = s := by
  unfold toSlug
  rw [jsTrim_eq_self (fun c hc => good_not_ws (good c hc))]
  rw [map_eq_self_of (fun c hc => good_lower (good c hc))]
  rw [List.filter_eq_self.2 (fun c hc => good_keep (good c hc))]
  rw [collapseRuns_eq_self isWs '-' s
    (chain'_noRun_of_none (fun c hc => good_not_ws (good c hc)))
    (fun c hc hws => absurd hws (by simp [good_not_ws (good c hc)]))]
  rw [collapseRuns_eq_self isHy '-' s ch
    (fun c _ hhy => by simpa [isHy] using hhy)]
  unfold trimHy
  rw [dropWhile_eq_self_of_head isHy s hh]
  rw [dropWhile_eq_self_of_head isHy s.reverse
    (fun c hc => hl c (by rwa [List.head?_reverse] at hc))]
  exact List.reverse_reverse s

/-- C10: `toSlug` is idempotent: for every string `x`,
`toSlug (toSlug x) = toSlug x`. -/
theorem C10_toSlug_idempotent : ∀ x : List Char, toSlug (toSlug x) = toSlug x :=
  fun x => toSlug_eq_self (toSlug_good x) (toSlug_chain' x) (toSlug_head x) (toSlug_last x)


/-! ### Parser lemmas -/

theorem splitCh_ne_nil (sep : Char) : ∀ l : List Char, splitCh sep l ≠ [] := by
  intro l
  cases l with
  | nil => simp [splitCh]
  | cons c cs =>
    rw [splitCh]
    rcases h : splitCh sep cs with _ | ⟨h', t'⟩
    · simp
    · by_cases hc : c = sep <;> simp [hc]

theorem splitCh_cons (sep c : Char) (cs : List Char) (h : List Char)
    (t : List (List Char)) (hs : splitCh sep cs = h :: t) :
    splitCh sep (c :: cs) = if c = sep then [] :: h :: t else (c :: h) :: t := by
  rw [splitCh, hs]

theorem splitCh_append (sep : Char) :
    ∀ a b : List Char, splitCh sep (a ++ sep :: b) = splitCh sep a ++ splitCh sep b := by
  intro a
  induction a with
  | nil =>
    intro b
    rcases h : splitCh sep b with _ | ⟨h', t'⟩
    · exact absurd h (splitCh_ne_nil sep b)
    · rw [List.nil_append, splitCh_cons sep sep b h' t' h]
      simp [splitCh, h]
  | cons c a' ih =>
    intro b
    rcases h : splitCh sep a' with _ | ⟨h', t'⟩
    · exact absurd h (splitCh_ne_nil sep a')
    · rcases hb : splitCh sep (a' ++ sep :: b) with _ | ⟨hb', tb'⟩
      · exact absurd hb (splitCh_ne_nil sep _)
      · have hib : (h' :: t') ++ splitCh sep b = hb' :: tb' := by
          rw [← h, ← ih b, hb]
        rw [List.cons_append, splitCh_cons sep c _ hb' tb' hb,
          splitCh_cons sep c a' h' t' h]
        have hh : hb' = h' := by
          have := hib
          rw [List.cons_append] at this
          exact (List.cons.inj this).1.symm
        have ht : tb' = t' ++ splitCh sep b := by
          have := hib
          rw [List.cons_append] at this
          exact (List.cons.inj this).2.symm
        subst hh
        subst ht
        by_cases hc : c = sep <;> simp [hc]

theorem joinHyphen_cons_cons (c : Char) (h : List Char) (t : List (List Char)) :
    joinHyphen ((c :: h) :: t) = c :: joinHyphen (h :: t) := by
  cases t with
  | nil => rfl
  | cons y r => simp [joinHyphen]

theorem joinHyphen_splitCh : ∀ l : List Char, joinHyphen (splitCh '-' l) = l := by
  intro l
  induction l with
  | nil => rfl
  | cons c cs ih =>
    rcases h : splitCh '-' cs with _ | ⟨h', t'⟩
    · exact absurd h (splitCh_ne_nil '-' cs)
    · rw [h] at ih
      rw [splitCh_cons '-' c cs h' t' h]
      by_cases hc : c = '-'
      · rw [if_pos hc, hc]
        show [] ++ '-' :: joinHyphen (h' :: t') = '-' :: cs
        rw [ih]
        rfl
      · rw [if_neg hc, joinHyphen_cons_cons, ih]

theorem splitOnInAux_cons (c : Char) (cs acc : List Char) :
    splitOnInAux (c :: cs) acc =
      if sepIn.isPrefixOf (c :: cs) then acc.reverse :: splitOnInAux (cs.drop 3) []
      else splitOnInAux cs (c :: acc) := by
  rcases cs with _ | ⟨c1, _ | ⟨c2, _ | ⟨c3, rest⟩⟩⟩
  · rw [splitOnInAux.eq_3 _ _ _ (by intro _ _ _ _ h; cases h)]
    have : sepIn.isPrefixOf [c] = false := by simp [sepIn, List.isPrefixOf]
    rw [this]
    rfl
  · rw [splitOnInAux.eq_3 _ _ _ (by intro _ _ _ _ h; cases h)]
    have : sepIn.isPrefixOf [c, c1] = false := by simp [sepIn, List.isPrefixOf]
    rw [this]
    rfl
  · rw [splitOnInAux.eq_3 _ _ _ (by intro _ _ _ _ h; cases h)]
    have : sepIn.isPrefixOf [c, c1, c2] = false := by simp [sepIn, List.isPrefixOf]
    rw [this]
    rfl
  · rw [splitOnInAux.eq_2]
    rfl

theorem splitOnInAux_of_none :
    ∀ (l acc : List Char), firstIn l = none → splitOnInAux l acc = [acc.reverse ++ l] := by
  intro l
  induction l with
  | nil =>
    intro acc _
    simp [splitOnInAux]
  | cons c cs ih =>
    intro acc h
    rw [firstIn] at h
    by_cases hp : sepIn.isPrefixOf (c :: cs) = true
    · rw [if_pos hp] at h
      exact absurd h (by simp)
    · rw [if_neg hp] at h
      rw [splitOnInAux_cons, if_neg hp, ih (c :: acc) (Option.map_eq_none'.1 h)]
      simp

theorem splitOnInAux_of_some :
    ∀ (l : List Char) (acc : List Char) (i : Nat), firstIn l = some i →
      splitOnInAux l acc = (acc.reverse ++ l.take i) :: splitOnInAux (l.drop (i + 4)) [] := by
  intro l
  induction l with
  | nil =>
    intro acc i h
    simp [firstIn] at h
  | cons c cs ih =>
    intro acc i h
    rw [firstIn] at h
    by_cases hp : sepIn.isPrefixOf (c :: cs) = true
    · rw [if_pos hp] at h
      have hi : i = 0 := by
        rw [Option.some_inj] at h
        omega
      subst hi
      rw [splitOnInAux_cons, if_pos hp]
      simp
    · rw [if_neg hp] at h
      rcases Option.map_eq_some'.1 h with ⟨j, hj, hij⟩
      subst hij
      rw [splitOnInAux_cons, if_neg hp, ih (c :: acc) j hj]
      rw [show j + 1 + 4 = (j + 4) + 1 by omega, List.drop_succ_cons]
      simp [List.append_assoc]

theorem containsSub_sepIn_iff :
    ∀ l : List Char, containsSub sepIn l = true ↔ (firstIn l).isSome = true := by
  intro l
  induction l with
  | nil => simp [containsSub, sepIn, firstIn, List.isEmpty]
  | cons c cs ih =>
    rw [containsSub, firstIn]
    by_cases hp : sepIn.isPrefixOf (c :: cs) = true
    · simp [hp]
    · simp [hp, ih]

theorem containsSub_sepIn_eq_false_iff (l : List Char) :
    containsSub sepIn l = false ↔ firstIn l = none := by
  rw [← Option.not_isSome_iff_eq_none, ← containsSub_sepIn_iff]
  simp

theorem firstIn_append_sepIn :
    ∀ (s : List Char), containsSub sepIn (s ++ ['-', 'i', 'n']) = false →
      ∀ r : List Char, firstIn (s ++ sepIn ++ r) = some s.length := by
  intro s
  induction s with
  | nil =>
    intro _ r
    have hp : sepIn.isPrefixOf (sepIn ++ r) = true :=
      List.isPrefixOf_iff_prefix.2 (List.prefix_append _ _)
    rw [List.nil_append, show (sepIn ++ r : List Char) = '-' :: (['i', 'n', '-'] ++ r) from rfl]
    rw [firstIn]
    rw [show ('-' :: (['i', 'n', '-'] ++ r) : List Char) = sepIn ++ r from rfl, if_pos hp]
    rfl
  | cons a s' ih =>
    intro h r
    rw [List.cons_append, containsSub, Bool.or_eq_false_iff] at h
    show firstIn (a :: (s' ++ sepIn ++ r)) = some (a :: s').length
    rw [firstIn]
    have hp : ¬(sepIn.isPrefixOf (a :: (s' ++ sepIn ++ r)) = true) := by
      intro hp
      have hpre : sepIn <+: (a :: (s' ++ sepIn ++ r)) := List.isPrefixOf_iff_prefix.1 hp
      have hshape : (a :: (s' ++ sepIn ++ r) : List Char) =
          (a :: (s' ++ ['-', 'i', 'n'])) ++ ('-' :: r) := by
        simp [sepIn]
      rw [hshape] at hpre
      have hlen : sepIn.length ≤ (a :: (s' ++ ['-', 'i', 'n'])).length := by
        simp [sepIn]
      rw [List.prefix_iff_eq_take, List.take_append_of_le_length hlen,
        ← List.prefix_iff_eq_take] at hpre
      have := List.isPrefixOf_iff_prefix.2 hpre
      rw [h.1] at this
      cases this
    rw [if_neg hp, ih h.2 r]
    rfl

/-- C4 counterexample: the non-empty segment list `["-in-"]` parses to a
triple whose `serviceSlug` and `citySlug` are the empty string — the claim
that no field of the returned triple is ever the empty string is false. -/
theorem C4_counterexample :
    ([str (r"-in-")] : List (List Char)) ≠ [] ∧
    (parseSeoSlug [str (r"-in-")]).serviceSlug = some [] ∧
    (parseSeoSlug [str (r"-in-")]).citySlug = some [] := by
  refine ⟨?_, ?_, ?_⟩ <;> decide

/-- C4 (amended): for every segment list (in particular every non-empty one)
the parsed triple has a non-null `serviceSlug`, so at least one field is
non-null; however fields may hold the empty string when the corresponding
text is empty (only the `citySlug` of the 3-or-more-token branch is coerced
from `''` to null). -/
theorem C4_parse_serviceSlug_not_none :
    ∀ slugArray : List (List Char),
      (parseSeoSlug slugArray).serviceSlug.isSome = true := by
  intro a
  simp only [parseSeoSlug]
  split
  · split
    · simp
    · split
      · simp
      · split <;> simp
  · simp

/-- C2 counterexample: for segments joining to `a-in-b-in-c` the code takes
the location part `b` (the text between the first and second markers), giving
`stateSlug = null` — not the location part `b-in-c` the claim describes, which
would give `stateSlug = "in-c"` under the 3-token rule. -/
theorem C2_counterexample :
    parseSeoSlug [str (r"a-in-b-in-c")] =
      { serviceSlug := some (str (r"a")), citySlug := some (str (r"b")),
        stateSlug := none } ∧
    (parseSeoSlug [str (r"a-in-b-in-c")]).stateSlug ≠ some (str (r"in-c")) := by
  refine ⟨?_, ?_⟩ <;> decide

/-- C2 (amended): `parseSeoSlug` splits at the first `-in-` marker:
`serviceSlug` is the text before the first occurrence, and the city/state
heuristic is applied to the text between the first occurrence and the next
following one (all remaining text when there is none) — not to the entire
text after the first marker.  On that location part, 3 or more `-`-tokens put
the last two in `stateSlug` and the leading rest in `citySlug` (null when
empty); exactly two give city then state; one gives city only. -/
theorem C2_parse_splits_at_first_marker (slugArray : List (List Char)) (i : Nat)
    (h : firstIn (joinHyphen slugArray) = some i) :
    (parseSeoSlug slugArray).serviceSlug = some ((joinHyphen slugArray).take i) ∧
    ∀ parts, parts = splitCh '-' (betweenMarkers (joinHyphen slugArray) i) →
      (3 ≤ parts.length →
        (parseSeoSlug slugArray).stateSlug =
          some (joinHyphen (parts.drop (parts.length - 2))) ∧
        (parseSeoSlug slugArray).citySlug =
          (if joinHyphen (parts.take (parts.length - 2)) = [] then none
           else some (joinHyphen (parts.take (parts.length - 2))))) ∧
      (parts.length = 2 →
        (parseSeoSlug slugArray).citySlug = some (parts.headD []) ∧
        (parseSeoSlug slugArray).stateSlug = some ((parts.drop 1).headD [])) ∧
      (parts.length = 1 →
        (parseSeoSlug slugArray).citySlug = some (parts.headD []) ∧
        (parseSeoSlug slugArray).stateSlug = none) := by
  have hcont : containsSub sepIn (joinHyphen slugArray) = true := by
    rw [containsSub_sepIn_iff, h]
    rfl
  have hsplit : splitOnIn (joinHyphen slugArray) =
      ((joinHyphen slugArray).take i) ::
        splitOnInAux ((joinHyphen slugArray).drop (i + 4)) [] := by
    have := splitOnInAux_of_some (joinHyphen slugArray) [] i h
    simpa [splitOnIn] using this
  have hloc : (splitOnInAux ((joinHyphen slugArray).drop (i + 4)) []).headD []
      = betweenMarkers (joinHyphen slugArray) i := by
    rw [betweenMarkers]
    rcases hf : firstIn ((joinHyphen slugArray).drop (i + 4)) with _ | j
    · rw [splitOnInAux_of_none _ [] hf]
      simp
    · rw [splitOnInAux_of_some _ [] j hf]
      simp
  have hhead : (splitOnIn (joinHyphen slugArray)).headD [] =
      (joinHyphen slugArray).take i := by
    rw [hsplit]
    rfl
  have hdrop : ((splitOnIn (joinHyphen slugArray)).drop 1).headD [] =
      betweenMarkers (joinHyphen slugArray) i := by
    rw [hsplit]
    simpa using hloc
  refine ⟨?_, ?_⟩
  · simp only [parseSeoSlug, hcont, if_true]
    split
    · simp [hsplit]
    · split
      · simp [hsplit]
      · split <;> simp [hsplit]
  · intro parts hparts
    have hP : splitCh '-' (((splitOnIn (joinHyphen slugArray)).drop 1).headD []) = parts := by
      rw [hdrop, hparts]
    refine ⟨?_, ?_, ?_⟩
    · intro h3
      constructor <;>
      · simp only [parseSeoSlug, hcont, if_true, hP]
        rw [if_pos h3]
    · intro h2
      have h3 : ¬(3 ≤ parts.length) := by omega
      constructor <;>
      · simp only [parseSeoSlug, hcont, if_true, hP]
        rw [if_neg h3, if_pos h2]
    · intro h1
      have h3 : ¬(3 ≤ parts.length) := by omega
      have h2 : ¬(parts.length = 2) := by omega
      constructor <;>
      · simp only [parseSeoSlug, hcont, if_true, hP]
        rw [if_neg h3, if_neg h2, if_pos h1]

/-- Witness for C2: at segments `["a-in-b-in-c"]` the first marker is at
index 1, the service slug is the text before it, and the location part `b`
has a single token taken as the city. -/
theorem C2_witness :
    (parseSeoSlug [str (r"a-in-b-in-c")]).serviceSlug = some (str (r"a")) ∧
    (parseSeoSlug [str (r"a-in-b-in-c")]).citySlug = some (str (r"b")) := by
  have h := C2_parse_splits_at_first_marker [str (r"a-in-b-in-c")] 1 (by decide)
  refine ⟨h.1.trans (by decide), ?_⟩
  have h1 := (h.2 (splitCh '-' (betweenMarkers (joinHyphen [str (r"a-in-b-in-c")]) 1))
    rfl).2.2 (by decide)
  exact h1.1.trans (by decide)

theorem parse_splitCh_noMarker (s : List Char) (hns : containsSub sepIn s = false) :
    parseSeoSlug (splitCh '-' s) =
      { serviceSlug := some s, citySlug := none, stateSlug := none } := by
  simp only [parseSeoSlug, joinHyphen_splitCh]
  rw [if_neg (by simp [hns])]

theorem parse_splitCh_marker (s c2 st : List Char)
    (hc : c2 ≠ [])
    (hmark : containsSub sepIn (s ++ ['-', 'i', 'n']) = false)
    (hloc : containsSub sepIn (c2 ++ '-' :: st) = false)
    (h2 : (splitCh '-' st).length = 2) :
    parseSeoSlug (splitCh '-' (s ++ sepIn ++ (c2 ++ '-' :: st))) =
      { serviceSlug := some s, citySlug := some c2, stateSlug := some st } := by
  have hr : firstIn (c2 ++ '-' :: st) = none := (containsSub_sepIn_eq_false_iff _).1 hloc
  have hfi : firstIn (s ++ sepIn ++ (c2 ++ '-' :: st)) = some s.length :=
    firstIn_append_sepIn s hmark _
  have hjoin := joinHyphen_splitCh (s ++ sepIn ++ (c2 ++ '-' :: st))
  have hcont : containsSub sepIn (s ++ sepIn ++ (c2 ++ '-' :: st)) = true := by
    rw [containsSub_sepIn_iff, hfi]
    rfl
  have htake : (s ++ sepIn ++ (c2 ++ '-' :: st)).take s.length = s := by
    rw [List.append_assoc]
    exact List.take_left _ _
  have hdropped : (s ++ sepIn ++ (c2 ++ '-' :: st)).drop (s.length + 4) = c2 ++ '-' :: st :=
    List.drop_left' (by simp [sepIn])
  have hpieces : splitOnIn (s ++ sepIn ++ (c2 ++ '-' :: st)) = [s, c2 ++ '-' :: st] := by
    rw [splitOnIn, splitOnInAux_of_some _ [] _ hfi, hdropped, splitOnInAux_of_none _ [] hr]
    simp [htake]
  have hparts : splitCh '-' (c2 ++ '-' :: st) =
      splitCh '-' c2 ++ splitCh '-' st := splitCh_append '-' c2 st
  have hclen : 1 ≤ (splitCh '-' c2).length := by
    rcases hx : splitCh '-' c2 with _ | ⟨y, t⟩
    · exact absurd hx (splitCh_ne_nil _ _)
    · simp
  have hplen : (splitCh '-' (c2 ++ '-' :: st)).length = (splitCh '-' c2).length + 2 := by
    rw [hparts, List.length_append, h2]
  have hlen3 : 3 ≤ (splitCh '-' (c2 ++ '-' :: st)).length := by omega
  have hsub : (splitCh '-' (c2 ++ '-' :: st)).length - 2 = (splitCh '-' c2).length := by
    omega
  have hdrop2 : (splitCh '-' (c2 ++ '-' :: st)).drop
      ((splitCh '-' (c2 ++ '-' :: st)).length - 2) = splitCh '-' st := by
    rw [hsub, hparts]
    exact List.drop_left _ _
  have htake2 : (splitCh '-' (c2 ++ '-' :: st)).take
      ((splitCh '-' (c2 ++ '-' :: st)).length - 2) = splitCh '-' c2 := by
    rw [hsub, hparts]
    exact List.take_left _ _
  simp only [parseSeoSlug, hjoin, hcont, if_true, hpieces]
  rw [show (([s, c2 ++ '-' :: st] : List (List Char)).drop 1).headD [] = c2 ++ '-' :: st
    from rfl]
  rw [show ([s, c2 ++ '-' :: st] : List (List Char)).headD [] = s from rfl]
  rw [if_pos hlen3, hdrop2, htake2, joinHyphen_splitCh, joinHyphen_splitCh, if_neg hc]

/-- C3 counterexample: for the input `{serviceName: "drop in service"}` (a
non-empty service name, no location) the built path is
`/directory/drop-in-service`, but parsing it back splits at the `-in-` inside
the service slug, yielding service `drop` and city `service` instead of the
original service slug — the round-trip law fails as claimed. -/
theorem C3_counterexample :
    buildDirectorySeoPath ⟨some (str (r"drop in service")), none, none⟩ =
      some (str (r"/directory/drop-in-service")) ∧
    parseSeoSlug (splitCh '-'
        (((buildDirectorySeoPath ⟨some (str (r"drop in service")), none, none⟩).getD
          []).drop 11)) =
      { serviceSlug := some (str (r"drop")), citySlug := some (str (r"service")),
        stateSlug := none } ∧
    (parseSeoSlug (splitCh '-'
        (((buildDirectorySeoPath ⟨some (str (r"drop in service")), none, none⟩).getD
          []).drop 11))).serviceSlug ≠
      some (toSlug (str (r"drop in service"))) := by
  refine ⟨?_, ?_, ?_⟩ <;> decide

/-- C3 (amended): the round trip `parseSeoSlug ∘ buildDirectorySeoPath` holds
for service-only inputs whose service slug contains no `-in-` marker, and for
full service+city+state inputs whose slugs are non-empty, whose state slug is
exactly 2 hyphen-separated tokens, and which cannot produce an `-in-` marker
other than the builder's separator (`serviceSlug ++ "-in"` marker-free, and
`citySlug ++ "-" ++ stateSlug` marker-free).  Without the marker-freedom
conditions the law fails (see the counterexample). -/
theorem C3_roundtrip (service city state : List Char) :
    (toSlug service ≠ [] → containsSub sepIn (toSlug service) = false →
      buildDirectorySeoPath ⟨some service, none, none⟩ =
        some (str (r"/directory/") ++ toSlug service) ∧
      parseSeoSlug (splitCh '-' ((str (r"/directory/") ++ toSlug service).drop 11)) =
        { serviceSlug := some (toSlug service), citySlug := none, stateSlug := none }) ∧
    (toSlug service ≠ [] → toSlug city ≠ [] → toSlug state ≠ [] →
      (splitCh '-' (toSlug state)).length = 2 →
      containsSub sepIn (toSlug service ++ ['-', 'i', 'n']) = false →
      containsSub sepIn (toSlug city ++ '-' :: toSlug state) = false →
      buildDirectorySeoPath ⟨some service, some city, some state⟩ =
        some (str (r"/directory/") ++ toSlug service ++ str (r"-in-") ++
          toSlug city ++ ['-'] ++ toSlug state) ∧
      parseSeoSlug (splitCh '-' ((str (r"/directory/") ++ toSlug service ++
          str (r"-in-") ++ toSlug city ++ ['-'] ++ toSlug state).drop 11)) =
        { serviceSlug := some (toSlug service), citySlug := some (toSlug city),
          stateSlug := some (toSlug state) }) := by
  constructor
  · intro hs hns
    have hserv : service ≠ [] := by
      intro h0
      apply hs
      rw [h0]
      decide
    have hse : service.isEmpty = false := by
      cases service with
      | nil => exact absurd rfl hserv
      | cons a t => rfl
    have hsse : (toSlug service).isEmpty = false := by
      rcases hx : toSlug service with _ | ⟨a, t⟩
      · exact absurd hx hs
      · rfl
    refine ⟨?_, ?_⟩
    · simp [buildDirectorySeoPath, jsTruthy, hse, hsse]
    · rw [List.drop_left' (by decide : (str (r"/directory/")).length = 11)]
      exact parse_splitCh_noMarker _ hns
  · intro hs hc hst h2tok hmark hlocmark
    have hserv : service ≠ [] := by
      intro h0
      apply hs
      rw [h0]
      decide
    have hcity : city ≠ [] := by
      intro h0
      apply hc
      rw [h0]
      decide
    have hstate : state ≠ [] := by
      intro h0
      apply hst
      rw [h0]
      decide
    have hse : service.isEmpty = false := by
      cases service with
      | nil => exact absurd rfl hserv
      | cons a t => rfl
    have hce : city.isEmpty = false := by
      cases city with
      | nil => exact absurd rfl hcity
      | cons a t => rfl
    have hste : state.isEmpty = false := by
      cases state with
      | nil => exact absurd rfl hstate
      | cons a t => rfl
    have hsse : (toSlug service).isEmpty = false := by
      rcases hx : toSlug service with _ | ⟨a, t⟩
      · exact absurd hx hs
      · rfl
    have hcse : (toSlug city).isEmpty = false := by
      rcases hx : toSlug city with _ | ⟨a, t⟩
      · exact absurd hx hc
      · rfl
    have hstse : (toSlug state).isEmpty = false := by
      rcases hx : toSlug state with _ | ⟨a, t⟩
      · exact absurd hx hst
      · rfl
    refine ⟨?_, ?_⟩
    · simp [buildDirectorySeoPath, jsTruthy, hse, hce, hste, hsse, hcse, hstse]
    · have hshape : (str (r"/directory/") ++ toSlug service ++ str (r"-in-") ++
          toSlug city ++ ['-'] ++ toSlug state : List Char) =
          str (r"/directory/") ++
            (toSlug service ++ sepIn ++ (toSlug city ++ '-' :: toSlug state)) := by
        simp [List.append_assoc]
        rfl
      rw [hshape, List.drop_left' (by decide : (str (r"/directory/")).length = 11)]
      exact parse_splitCh_marker _ _ _ hc hmark hlocmark h2tok

/-- Witness for C3: the service-only input "Land Surveyors" and the full
input ("PEB Building Design Consultant", "Visakhapatnam", "Andhra Pradesh")
both satisfy the marker-freedom side conditions and round-trip exactly. -/
theorem C3_roundtrip_witness :
    parseSeoSlug (splitCh '-'
        ((str (r"/directory/") ++ toSlug (str (r"Land Surveyors"))).drop 11)) =
      { serviceSlug := some (toSlug (str (r"Land Surveyors"))), citySlug := none,
        stateSlug := none } ∧
    parseSeoSlug (splitCh '-' ((str (r"/directory/") ++
        toSlug (str (r"PEB Building Design Consultant")) ++ str (r"-in-") ++
        toSlug (str (r"Visakhapatnam")) ++ ['-'] ++
        toSlug (str (r"Andhra Pradesh"))).drop 11)) =
      { serviceSlug := some (toSlug (str (r"PEB Building Design Consultant"))),
        citySlug := some (toSlug (str (r"Visakhapatnam"))),
        stateSlug := some (toSlug (str (r"Andhra Pradesh"))) } := by
  constructor
  · exact ((C3_roundtrip (str (r"Land Surveyors")) [] []).1 (by decide) (by decide)).2
  · exact ((C3_roundtrip (str (r"PEB Building Design Consultant"))
      (str (r"Visakhapatnam")) (str (r"Andhra Pradesh"))).2 (by decide) (by decide)
      (by decide) (by decide) (by decide) (by decide)).2

/-- C7: `buildDirectorySeoPath` returns null iff no serviceName is
effectively present, regardless of city/state inputs; with a service and a
partial location (city or state missing/ineffective) the result is the
service-only path; only the full effective triple yields the combined
`-in-` path. -/
theorem C7_build_none_iff (o : BuildOpts) :
    (buildDirectorySeoPath o = none ↔ effectiveService o = false) ∧
    (effectiveService o = true → (effectiveCity o = false ∨ effectiveState o = false) →
      buildDirectorySeoPath o =
        some (str (r"/directory/") ++ toSlug (o.serviceName.getD []))) ∧
    (effectiveService o = true → effectiveCity o = true → effectiveState o = true →
      buildDirectorySeoPath o =
        some (str (r"/directory/") ++ toSlug (o.serviceName.getD []) ++ str (r"-in-") ++
          toSlug (o.cityName.getD []) ++ ['-'] ++ toSlug (o.stateName.getD []))) := by
  have hes : ∀ x : Option (List Char),
      jsTruthy (if jsTruthy x then some (toSlug (x.getD [])) else none) =
        (jsTruthy x && !(toSlug (x.getD [])).isEmpty) := by
    intro x
    cases x with
    | none => rfl
    | some v =>
      by_cases h : v.isEmpty = true <;> simp [jsTruthy, h]
  have hgd : ∀ x : Option (List Char),
      (jsTruthy x && !(toSlug (x.getD [])).isEmpty) = true →
        (if jsTruthy x then some (toSlug (x.getD [])) else none) =
          some (toSlug (x.getD [])) := by
    intro x hx
    rw [Bool.and_eq_true] at hx
    rw [if_pos hx.1]
  simp only [buildDirectorySeoPath, effectiveService, effectiveCity, effectiveState, hes]
  cases ha : (jsTruthy o.serviceName && !(toSlug (o.serviceName.getD [])).isEmpty) with
  | false =>
    cases hb : (jsTruthy o.cityName && !(toSlug (o.cityName.getD [])).isEmpty) <;>
      cases hc : (jsTruthy o.stateName && !(toSlug (o.stateName.getD [])).isEmpty) <;>
        simp [ha, hb, hc]
  | true =>
    have hsgd := hgd o.serviceName ha
    cases hb : (jsTruthy o.cityName && !(toSlug (o.cityName.getD [])).isEmpty) with
    | false =>
      cases hc : (jsTruthy o.stateName && !(toSlug (o.stateName.getD [])).isEmpty) <;>
        simp [ha, hb, hc, hsgd]
    | true =>
      have hcgd := hgd o.cityName hb
      cases hc : (jsTruthy o.stateName && !(toSlug (o.stateName.getD [])).isEmpty) with
      | false => simp [ha, hb, hc, hsgd]
      | true =>
        have hstgd := hgd o.stateName hc
        simp [ha, hb, hc, hsgd, hcgd, hstgd]

/-- Witness for C7: no service (with a city) gives null; service with a
partial location gives the service-only path; a full triple gives the
combined path. -/
theorem C7_build_none_iff_witness :
    buildDirectorySeoPath ⟨none, some (str (r"Delhi")), none⟩ = none ∧
    buildDirectorySeoPath
        ⟨some (str (r"Land Surveyors")), some (str (r"Delhi")), none⟩ =
      some (str (r"/directory/land-surveyors")) ∧
    buildDirectorySeoPath
        ⟨some (str (r"Land Surveyors")), some (str (r"Delhi")), some (str (r"Goa"))⟩ =
      some (str (r"/directory/land-surveyors-in-delhi-goa")) := by
  refine ⟨?_, ?_, ?_⟩
  · exact (C7_build_none_iff ⟨none, some (str (r"Delhi")), none⟩).1.mpr (by decide)
  · exact ((C7_build_none_iff
      ⟨some (str (r"Land Surveyors")), some (str (r"Delhi")), none⟩).2.1
      (by decide) (Or.inr (by decide))).trans (by decide)
  · exact ((C7_build_none_iff
      ⟨some (str (r"Land Surveyors")), some (str (r"Delhi")), some (str (r"Goa"))⟩).2.2
      (by decide) (by decide) (by decide)).trans (by decide)

/-! ### CategoryResolver lemmas -/

example :
    resolveCategoryPathForService (some (str (r"Boundary Survey")))
        [{ name := str (r"Land Surveyors"),
           subCategories := [{ name := str (r"Boundary Survey") }] }] =
      { headCategory := some (str (r"Land Surveyors")),
        microCategory := some (str (r"Boundary Survey")),
        serviceName := some (str (r"Boundary Survey")) } := by decide

theorem resolveLoop_skip (s ns : List Char) :
    ∀ (pre l : List ServiceCategory),
      (∀ cat ∈ pre, normName cat.name ≠ ns ∧
        ∀ sc ∈ cat.subCategories, normName sc.name ≠ ns) →
      resolveLoop s ns (pre ++ l) = resolveLoop s ns l := by
  intro pre
  induction pre with
  | nil =>
    intro l _
    rfl
  | cons cat pre' ih =>
    intro l h
    have hcat := h cat (by simp)
    rw [List.cons_append, resolveLoop, if_neg hcat.1]
    rw [List.find?_eq_none.2 (fun x hx => by simp [hcat.2 x hx])]
    exact ih l (fun c hc => h c (List.mem_cons_of_mem _ hc))

theorem resolve_guard (s : List Char) (hs : s ≠ []) (cats : List ServiceCategory)
    (hc : cats ≠ []) :
    resolveCategoryPathForService (some s) cats = resolveLoop s (normName s) cats := by
  rw [resolveCategoryPathForService, if_neg (by simp [hs, hc])]

/-- C6 counterexample: with catalog `[{a, subs:[x]}, {x, subs:[]}]` and
service `x`, the code returns the earlier entry's subcategory match
`{head: a, micro: x}`, not the later top-level match `{head: x, micro: null}`
the claim requires. -/
theorem C6_counterexample :
    resolveCategoryPathForService (some (str (r"x")))
        [{ name := str (r"a"), subCategories := [{ name := str (r"x") }] },
         { name := str (r"x"), subCategories := [] }] =
      { headCategory := some (str (r"a")), microCategory := some (str (r"x")),
        serviceName := some (str (r"x")) } ∧
    resolveCategoryPathForService (some (str (r"x")))
        [{ name := str (r"a"), subCategories := [{ name := str (r"x") }] },
         { name := str (r"x"), subCategories := [] }] ≠
      { headCategory := some (str (r"x")), microCategory := none,
        serviceName := some (str (r"x")) } := by
  refine ⟨?_, ?_⟩ <;> decide

/-- C6 (amended): the search is interleaved per catalog entry — for each
entry, the top-level name is compared first, then that entry's subcategory
names, before moving to the next entry; the first match in this order wins.
Consequently a subcategory match in an earlier entry beats a top-level match
in any later entry (the result does not depend on the remaining entries),
and when nothing matches all category fields are null with the service name
passed through unchanged. -/
theorem C6_resolve_interleaved :
    (∀ (s : List Char) (pre : List ServiceCategory) (catA : ServiceCategory)
        (rest : List ServiceCategory),
      s ≠ [] →
      (∀ cat ∈ pre, normName cat.name ≠ normName s ∧
        ∀ sc ∈ cat.subCategories, normName sc.name ≠ normName s) →
      normName catA.name = normName s →
      resolveCategoryPathForService (some s) (pre ++ catA :: rest) =
        { headCategory := some catA.name, microCategory := none,
          serviceName := some s }) ∧
    (∀ (s : List Char) (pre : List ServiceCategory) (catA : ServiceCategory)
        (rest : List ServiceCategory) (sub0 : SubCategory),
      s ≠ [] →
      (∀ cat ∈ pre, normName cat.name ≠ normName s ∧
        ∀ sc ∈ cat.subCategories, normName sc.name ≠ normName s) →
      normName catA.name ≠ normName s →
      catA.subCategories.find? (fun sc => normName sc.name == normName s) = some sub0 →
      resolveCategoryPathForService (some s) (pre ++ catA :: rest) =
        { headCategory := some catA.name, microCategory := some sub0.name,
          serviceName := some s }) ∧
    (∀ (s : List Char) (cats : List ServiceCategory),
      s ≠ [] → cats ≠ [] →
      (∀ cat ∈ cats, normName cat.name ≠ normName s ∧
        ∀ sc ∈ cat.subCategories, normName sc.name ≠ normName s) →
      resolveCategoryPathForService (some s) cats =
        { headCategory := none, microCategory := none, serviceName := some s }) := by
  refine ⟨?_, ?_, ?_⟩
  · intro s pre catA rest hs hpre hhead
    rw [resolve_guard s hs _ (by simp), resolveLoop_skip s (normName s) pre _ hpre]
    rw [resolveLoop, if_pos hhead]
  · intro s pre catA rest sub0 hs hpre hhead hfind
    rw [resolve_guard s hs _ (by simp), resolveLoop_skip s (normName s) pre _ hpre]
    rw [resolveLoop, if_neg hhead, hfind]
  · intro s cats hs hcats hno
    rw [resolve_guard s hs _ hcats]
    rw [show cats = cats ++ [] by simp] at hno ⊢
    rw [resolveLoop_skip s (normName s) cats [] (by
      intro c hc
      exact hno c (by simp [hc]))]
    rfl

/-- Witness for C6: the interleaved order on the concrete catalog
`[{a, subs:[x]}, {x, subs:[]}]`, plus a head match and a no-match case. -/
theorem C6_resolve_interleaved_witness :
    resolveCategoryPathForService (some (str (r"x")))
        [{ name := str (r"a"), subCategories := [{ name := str (r"x") }] },
         { name := str (r"x"), subCategories := [] }] =
      { headCategory := some (str (r"a")), microCategory := some (str (r"x")),
        serviceName := some (str (r"x")) } ∧
    resolveCategoryPathForService (some (str (r"a")))
        [{ name := str (r"a"), subCategories := [] }] =
      { headCategory := some (str (r"a")), microCategory := none,
        serviceName := some (str (r"a")) } ∧
    resolveCategoryPathForService (some (str (r"z")))
        [{ name := str (r"a"), subCategories := [{ name := str (r"x") }] }] =
      { headCategory := none, microCategory := none,
        serviceName := some (str (r"z")) } := by
  refine ⟨?_, ?_, ?_⟩
  · exact C6_resolve_interleaved.2.1 (str (r"x")) []
      { name := str (r"a"), subCategories := [{ name := str (r"x") }] }
      [{ name := str (r"x"), subCategories := [] }] { name := str (r"x") }
      (by decide) (by intro c hc; cases hc) (by decide) (by decide)
  · exact C6_resolve_interleaved.1 (str (r"a")) []
      { name := str (r"a"), subCategories := [] } [] (by decide)
      (by intro c hc; cases hc) (by decide)
  · exact C6_resolve_interleaved.2.2 (str (r"z"))
      [{ name := str (r"a"), subCategories := [{ name := str (r"x") }] }]
      (by decide) (by decide) (by
        intro c hc
        simp at hc
        subst hc
        constructor
        · decide
        · intro sc hsc
          simp at hsc
          subst hsc
          decide)

/-! ### Middleware theorems -/

example :
    middleware ⟨⟨str (r"vendor.indiantrademart.com"), [], str (r"/products")⟩,
      some (str (r"vendor.indiantrademart.com"))⟩ =
    MwResponse.rewrite
      ⟨str (r"vendor.indiantrademart.com"), [], str (r"/vendor/products")⟩ := by
  decide

example :
    middleware ⟨⟨str (r"dir.indiantrademart.com"), [], str (r"/land-surveyors")⟩,
      some (str (r"dir.indiantrademart.com"))⟩ =
    MwResponse.rewrite
      ⟨str (r"dir.indiantrademart.com"), [], str (r"/directory/land-surveyors")⟩ := by
  decide

example :
    middleware ⟨⟨str (r"www.indiantrademart.com"), [], str (r"/land-surveyors")⟩,
      some (str (r"www.indiantrademart.com"))⟩ =
    MwResponse.redirect 308
      ⟨str (r"dir.indiantrademart.com"), [], str (r"/land-surveyors")⟩ := by
  decide

/-- C1: evaluating the middleware at the claim's own example: a request to
the bare domain `example.com/land-surveyors` passes through unchanged instead
of being 308-redirected to the dir subdomain, because the computed subdomain
(the first dot-separated label of the host) is `example`, never the empty
string the guard tests for; the same holds on the bare production domain,
whose first label is `indiantrademart`. -/
theorem C1_bare_domain_passthrough :
    middleware ⟨⟨str (r"example.com"), [], str (r"/land-surveyors")⟩,
      some (str (r"example.com"))⟩ = MwResponse.next ∧
    middleware ⟨⟨str (r"indiantrademart.com"), [], str (r"/land-surveyors")⟩,
      some (str (r"indiantrademart.com"))⟩ = MwResponse.next ∧
    (splitCh '.' (str (r"example.com"))).headD [] = str (r"example") := by
  refine ⟨?_, ?_, ?_⟩ <;> decide

theorem dashboard_generic_next (url : NextUrl) (tp : Option (List Char))
    (h : (str (r"/dashboard")).isPrefixOf url.pathname = true) :
    genericSubdomainRewrite url tp = MwResponse.next := by
  cases tp with
  | none => rfl
  | some t =>
    simp only [genericSubdomainRewrite]
    rw [if_neg]
    intro hcon
    exact hcon.2 h

/-- C5: for every request whose path starts with `/dashboard`, whatever the
subdomain, the generic subdomain-to-path rewrite stage (step 7) returns
pass-through, and the whole middleware either passes the request through,
redirects it (an earlier stage), or rewrites it via the earlier
dir-subdomain stage — step 7 never rewrites a dashboard path. -/
theorem C5_dashboard_not_rewritten (req : Req)
    (h : (str (r"/dashboard")).isPrefixOf req.nextUrl.pathname = true) :
    genericSubdomainRewrite req.nextUrl
        (SUBDOMAIN_MAP ((splitCh '.'
          ((splitCh ':' (req.hostHeader.getD [])).headD [])).headD [])) =
      MwResponse.next ∧
    (middleware req = MwResponse.next ∨
      (∃ code u, middleware req = MwResponse.redirect code u) ∨
      middleware req = MwResponse.rewrite
        { req.nextUrl with pathname := str (r"/directory") ++ req.nextUrl.pathname }) := by
  constructor
  · exact dashboard_generic_next _ _ h
  · suffices hP : ∀ res : MwResponse, middleware req = res →
        (res = MwResponse.next ∨ (∃ code u, res = MwResponse.redirect code u) ∨
          res = MwResponse.rewrite
            { req.nextUrl with
              pathname := str (r"/directory") ++ req.nextUrl.pathname }) by
      rcases hP (middleware req) rfl with h1 | ⟨code, u, h2⟩ | h3
      · exact Or.inl h1
      · exact Or.inr (Or.inl ⟨code, u, h2⟩)
      · exact Or.inr (Or.inr h3)
    intro res hres
    delta middleware at hres
    simp only [] at hres
    split at hres
    · exact Or.inl hres.symm
    · split at hres
      · exact Or.inr (Or.inl ⟨307, _, hres.symm⟩)
      · split at hres
        · exact Or.inr (Or.inl ⟨307, _, hres.symm⟩)
        · split at hres
          · exact Or.inr (Or.inl ⟨307, _, hres.symm⟩)
          · split at hres
            · exact Or.inl hres.symm
            · split at hres
              · exact Or.inr (Or.inr hres.symm)
              · split at hres
                · exact Or.inr (Or.inl ⟨308, _, hres.symm⟩)
                · rw [dashboard_generic_next _ _ h] at hres
                  exact Or.inl hres.symm

/-- Witness for C5: the request `vendor.indiantrademart.com/dashboard/x` —
step 7 passes it through and the middleware leaves it unmodified. -/
theorem C5_dashboard_not_rewritten_witness :
    genericSubdomainRewrite
        ⟨str (r"vendor.indiantrademart.com"), [], str (r"/dashboard/x")⟩
        (SUBDOMAIN_MAP (str (r"vendor"))) = MwResponse.next ∧
    (middleware ⟨⟨str (r"vendor.indiantrademart.com"), [], str (r"/dashboard/x")⟩,
        some (str (r"vendor.indiantrademart.com"))⟩ = MwResponse.next ∨
      (∃ code u,
        middleware ⟨⟨str (r"vendor.indiantrademart.com"), [], str (r"/dashboard/x")⟩,
          some (str (r"vendor.indiantrademart.com"))⟩ = MwResponse.redirect code u) ∨
      middleware ⟨⟨str (r"vendor.indiantrademart.com"), [], str (r"/dashboard/x")⟩,
          some (str (r"vendor.indiantrademart.com"))⟩ = MwResponse.rewrite
        ⟨str (r"vendor.indiantrademart.com"), [],
          str (r"/directory/dashboard/x")⟩) :=
  C5_dashboard_not_rewritten
    ⟨⟨str (r"vendor.indiantrademart.com"), [], str (r"/dashboard/x")⟩,
      some (str (r"vendor.indiantrademart.com"))⟩ (by decide)

/-! ### Scheduler lemmas -/

theorem afterUpdate_storage (cfg : SchedConfig) (old upd : SchedState) :
    (afterUpdate cfg old upd).storage = upd.storage := by
  rw [afterUpdate]
  split
  · rw [effectRun]
    split <;> rfl
  · rfl

theorem afterUpdate_isOpen (cfg : SchedConfig) (old upd : SchedState) :
    (afterUpdate cfg old upd).isOpen = upd.isOpen := by
  rw [afterUpdate]
  split
  · rw [effectRun]
    split <;> rfl
  · rfl

theorem effectRun_pendingInv_of_cleared (cfg : SchedConfig) (u : SchedState)
    (h : u.timerPending = false) : pendingInv (effectRun cfg u) := by
  by_cases hg : (cfg.enabledAutoOpen && !u.hasSubmitted && !u.hasDismissed) = true
  · rw [effectRun, if_pos hg]
    intro _
    simp only [Bool.and_eq_true, Bool.not_eq_true'] at hg
    exact ⟨hg.2, hg.1.2⟩
  · rw [effectRun, if_neg hg]
    intro hp
    rw [h] at hp
    cases hp

theorem schedStep_pendingInv (cfg : SchedConfig) (s : SchedState) (e : SchedEv)
    (hinv : pendingInv s) : pendingInv (schedStep cfg s e) := by
  cases e with
  | openPopup =>
    rw [schedStep, afterUpdate]
    split
    · exact effectRun_pendingInv_of_cleared cfg _ rfl
    · intro hp
      exact hinv hp
  | closePopup =>
    rw [schedStep, afterUpdate]
    split
    · exact effectRun_pendingInv_of_cleared cfg _ rfl
    · rename_i hdep
      simp only [schedDeps, ne_eq, Prod.mk.injEq, not_and, not_not, Classical.not_imp] at hdep
      intro hp
      rcases hinv hp with ⟨hd, _⟩
      exact absurd (hdep.2.trans hd) (by decide)
  | markAsSubmitted =>
    rw [schedStep, afterUpdate]
    split
    · exact effectRun_pendingInv_of_cleared cfg _ rfl
    · rename_i hdep
      simp only [schedDeps, ne_eq, Prod.mk.injEq, not_and, not_not, Classical.not_imp] at hdep
      intro hp
      rcases hinv hp with ⟨_, hsub⟩
      exact absurd (hdep.1.trans hsub) (by decide)
  | timerFire =>
    rw [schedStep]
    split
    · rw [afterUpdate]
      split
      · exact effectRun_pendingInv_of_cleared cfg _ rfl
      · intro hp
        cases hp
    · exact hinv
  | unmount =>
    intro hp
    cases hp

theorem effectRun_hasSubmitted (cfg : SchedConfig) (u : SchedState) :
    (effectRun cfg u).hasSubmitted = u.hasSubmitted := by
  rw [effectRun]
  split <;> rfl

theorem effectRun_of_submitted (cfg : SchedConfig) (u : SchedState)
    (h : u.hasSubmitted = true) : effectRun cfg u = u := by
  rw [effectRun, if_neg]
  simp [h]

theorem effectRun_of_dismissed (cfg : SchedConfig) (u : SchedState)
    (h : u.hasDismissed = true) : effectRun cfg u = u := by
  rw [effectRun, if_neg]
  simp [h]

theorem afterUpdate_of_subm_true (cfg : SchedConfig) (old upd : SchedState)
    (hu : upd.hasSubmitted = true) (ho : old.hasSubmitted = false) :
    afterUpdate cfg old upd = { upd with timerPending := false } := by
  rw [afterUpdate, if_pos]
  · exact effectRun_of_submitted cfg _ hu
  · simp [schedDeps, hu, ho]

theorem mountScheduler_true_eq (cfg : SchedConfig) :
    mountScheduler cfg true =
      { effectRun cfg ⟨false, false, false, false, true⟩ with
        hasSubmitted := true, timerPending := false } := by
  show afterUpdate cfg _ _ = _
  rw [afterUpdate_of_subm_true cfg _ _ rfl (effectRun_hasSubmitted cfg _)]

theorem mountScheduler_submitted (cfg : SchedConfig) :
    (mountScheduler cfg true).hasSubmitted = true ∧
      (mountScheduler cfg true).timerPending = false := by
  rw [mountScheduler_true_eq]
  exact ⟨rfl, rfl⟩

theorem mountScheduler_pendingInv (cfg : SchedConfig) (st : Bool) :
    pendingInv (mountScheduler cfg st) := by
  cases st with
  | false => exact effectRun_pendingInv_of_cleared cfg _ rfl
  | true =>
    rw [mountScheduler_true_eq]
    intro hp
    cases hp

theorem schedStep_preserves_submitted (cfg : SchedConfig) (s : SchedState) (e : SchedEv)
    (h1 : s.hasSubmitted = true) (h2 : s.timerPending = false) :
    (schedStep cfg s e).hasSubmitted = true ∧ (schedStep cfg s e).timerPending = false := by
  cases e with
  | openPopup =>
    rw [schedStep, afterUpdate]
    split
    · constructor
      · rw [effectRun_hasSubmitted]
        exact h1
      · rw [effectRun, if_neg (by simp [h1])]
    · exact ⟨h1, h2⟩
  | closePopup =>
    rw [schedStep, afterUpdate]
    split
    · constructor
      · rw [effectRun_hasSubmitted]
        exact h1
      · rw [effectRun, if_neg (by simp [h1])]
    · exact ⟨h1, h2⟩
  | markAsSubmitted =>
    rw [schedStep, afterUpdate]
    split
    · constructor
      · rw [effectRun_hasSubmitted]
      · rw [effectRun, if_neg (by simp)]
    · exact ⟨rfl, h2⟩
  | timerFire =>
    rw [schedStep, if_neg (by simp [h2])]
    exact ⟨h1, h2⟩
  | unmount => exact ⟨h1, rfl⟩

theorem runSched_submitted (cfg : SchedConfig) (evs : List SchedEv) :
    ∀ s : SchedState, s.hasSubmitted = true → s.timerPending = false →
      (runSched cfg s evs).hasSubmitted = true ∧
        (runSched cfg s evs).timerPending = false := by
  induction evs with
  | nil =>
    intro s h1 h2
    exact ⟨h1, h2⟩
  | cons e es ih =>
    intro s h1 h2
    obtain ⟨g1, g2⟩ := schedStep_preserves_submitted cfg s e h1 h2
    exact ih _ g1 g2

theorem runSched_pendingInv_aux (cfg : SchedConfig) (evs : List SchedEv) :
    ∀ s : SchedState, pendingInv s → pendingInv (runSched cfg s evs) := by
  induction evs with
  | nil =>
    intro s h
    exact h
  | cons e es ih =>
    intro s h
    exact ih _ (schedStep_pendingInv cfg s e h)

theorem runSched_pendingInv (cfg : SchedConfig) (st : Bool) (evs : List SchedEv) :
    pendingInv (runSched cfg (mountScheduler cfg st) evs) :=
  runSched_pendingInv_aux cfg evs _ (mountScheduler_pendingInv cfg st)

theorem closePopup_cancels (cfg : SchedConfig) (s : SchedState) (hinv : pendingInv s) :
    (schedStep cfg s SchedEv.closePopup).timerPending = false := by
  rw [schedStep, afterUpdate]
  split
  · rw [effectRun_of_dismissed cfg _ rfl]
  · rename_i hdep
    simp only [schedDeps, ne_eq, Prod.mk.injEq, not_and, not_not,
      Classical.not_imp] at hdep
    cases hsp : s.timerPending with
    | false => rfl
    | true => exact absurd (hdep.2.trans (hinv hsp).1) (by decide)

theorem markAsSubmitted_cancels (cfg : SchedConfig) (s : SchedState)
    (hinv : pendingInv s) :
    (schedStep cfg s SchedEv.markAsSubmitted).timerPending = false := by
  rw [schedStep, afterUpdate]
  split
  · rw [effectRun_of_submitted cfg _ rfl]
  · rename_i hdep
    simp only [schedDeps, ne_eq, Prod.mk.injEq, not_and, not_not,
      Classical.not_imp] at hdep
    cases hsp : s.timerPending with
    | false => rfl
    | true => exact absurd (hdep.1.trans (hinv hsp).2) (by decide)

theorem closePopup_isOpen_false (cfg : SchedConfig) (s : SchedState) :
    (schedStep cfg s SchedEv.closePopup).isOpen = false := by
  rw [schedStep, afterUpdate_isOpen]

/-- C8: `markAsSubmitted` persists the session flag, and in every run of a
scheduler instance mounted with the persisted flag set (the "same session"
re-mount), for every `enabledAutoOpen` value and every delay: the auto-open
timeout is never pending, the timeout event never changes the state (so the
popup can never reach the open state via the timer), and a manual
`openPopup` still opens it. -/
theorem C8_submitted_never_auto_opens :
    (∀ (cfg : SchedConfig) (s : SchedState),
      (schedStep cfg s SchedEv.markAsSubmitted).storage = true) ∧
    (∀ (cfg : SchedConfig) (evs : List SchedEv),
      (runSched cfg (mountScheduler cfg true) evs).timerPending = false ∧
      schedStep cfg (runSched cfg (mountScheduler cfg true) evs) SchedEv.timerFire =
        runSched cfg (mountScheduler cfg true) evs ∧
      (schedStep cfg (runSched cfg (mountScheduler cfg true) evs)
        SchedEv.openPopup).isOpen = true) := by
  constructor
  · intro cfg s
    rw [schedStep, afterUpdate_storage]
  · intro cfg evs
    obtain ⟨h1, h2⟩ := runSched_submitted cfg evs (mountScheduler cfg true)
      (mountScheduler_submitted cfg).1 (mountScheduler_submitted cfg).2
    refine ⟨h2, ?_, ?_⟩
    · rw [schedStep, if_neg (by simp [h2])]
    · rw [schedStep, afterUpdate_isOpen]

/-- C9 counterexample: with auto-open enabled and no prior submission, the
mounted scheduler has a pending timeout and a manual `openPopup` call does
NOT cancel it — `isOpen` is not a dependency of the scheduling effect, so no
cleanup runs and the timeout stays pending, contrary to the claim. -/
theorem C9_counterexample :
    (mountScheduler ⟨true, 20000⟩ false).timerPending = true ∧
    (schedStep ⟨true, 20000⟩ (mountScheduler ⟨true, 20000⟩ false)
      SchedEv.openPopup).timerPending = true := by
  refine ⟨?_, ?_⟩ <;> decide

/-- C9 (amended): in every reachable scheduler state, dismissing, submitting
and unmounting cancel a pending auto-open timeout (the effect cleanup runs on
the dependency change, or directly on unmount); the manual `openPopup` call
does NOT cancel a pending timeout (it stays armed, and can only re-assert the
already-open state); nevertheless no stale callback ever re-opens the popup
after it is closed: right after `closePopup` the timeout is cancelled, a
subsequent `timerFire` is a no-op, and the popup is closed. -/
theorem C9_supersede_cancellation (cfg : SchedConfig) (st : Bool)
    (evs : List SchedEv) :
    (schedStep cfg (runSched cfg (mountScheduler cfg st) evs)
      SchedEv.closePopup).timerPending = false ∧
    (schedStep cfg (runSched cfg (mountScheduler cfg st) evs)
      SchedEv.markAsSubmitted).timerPending = false ∧
    (schedStep cfg (runSched cfg (mountScheduler cfg st) evs)
      SchedEv.unmount).timerPending = false ∧
    ((runSched cfg (mountScheduler cfg st) evs).timerPending = true →
      (schedStep cfg (runSched cfg (mountScheduler cfg st) evs)
        SchedEv.openPopup).timerPending = true) ∧
    schedStep cfg (schedStep cfg (runSched cfg (mountScheduler cfg st) evs)
        SchedEv.closePopup) SchedEv.timerFire =
      schedStep cfg (runSched cfg (mountScheduler cfg st) evs) SchedEv.closePopup ∧
    (schedStep cfg (runSched cfg (mountScheduler cfg st) evs)
      SchedEv.closePopup).isOpen = false := by
  have hinv := runSched_pendingInv cfg st evs
  refine ⟨closePopup_cancels _ _ hinv, markAsSubmitted_cancels _ _ hinv, rfl, ?_, ?_,
    closePopup_isOpen_false _ _⟩
  · intro hp
    rw [schedStep, afterUpdate, if_neg]
    · exact hp
    · simp [schedDeps]
  · have hc := closePopup_cancels cfg (runSched cfg (mountScheduler cfg st) evs) hinv
    revert hc
    generalize schedStep cfg (runSched cfg (mountScheduler cfg st) evs)
      SchedEv.closePopup = s2
    intro hc
    rw [schedStep, if_neg (by simp [hc])]

/-- Witness for C9: with auto-open enabled and no prior submission, right
after mount the timeout is pending, and the amended theorem's open-does-not-
cancel clause applies: after `openPopup` it is still pending. -/
theorem C9_supersede_cancellation_witness :
    (schedStep ⟨true, 20000⟩
      (runSched ⟨true, 20000⟩ (mountScheduler ⟨true, 20000⟩ false) [])
      SchedEv.openPopup).timerPending = true :=
  (C9_supersede_cancellation ⟨true, 20000⟩ false []).2.2.2.1 (by decide)
